import Mathlib

/-!
Verification development for the TaskMaster repository.

The definitions below are a shallow embedding of the client-side store
logic of the repository:

* `ChannelContext` (channel creation, membership, roles, invite codes),
* `TaskContext` (tasks, shopping items, completion toggling),
* `ChatContext` (channel message log) and
* `DirectMessageContext` (direct messages gated by shared membership).

Firestore is modelled explicitly: a document collection is a Lean list,
`arrayUnion` / `arrayRemove` follow Firestore's array-field semantics
(union does not duplicate, remove deletes every occurrence), a
`where`-query is a filter, `orderBy` ascending composed with `limit n`
is "sort, then take the first n", and a by-id fetch is `find?` on the id.
A thrown `Error` is an `Except.error`; the authenticated caller's uid is
passed as an explicit argument (every modelled operation first checks
`currentUser` in the source, so the uid argument encodes a signed-in
session).  Generated identifiers (`uuidv4`, `crypto.randomUUID`) and
timestamps are supplied as explicit parameters.
-/

namespace TaskMaster

/-! ### Firestore array-field primitives -/

/-- Firestore `arrayUnion(x)` on an array field: appends `x` unless present. -/
def arrayUnion (l : List String) (x : String) : List String :=
  if x ∈ l then l else l ++ [x]

/-- Firestore `arrayRemove(x)` on an array field: removes all occurrences. -/
def arrayRemove (l : List String) (x : String) : List String :=
  l.filter (fun y => y ≠ x)

theorem mem_arrayUnion {l : List String} {x a : String} :
    a ∈ arrayUnion l x ↔ a ∈ l ∨ a = x := by
  unfold arrayUnion
  split
  · constructor
    · exact Or.inl
    · rintro (h | rfl) <;> assumption
  · simp [List.mem_append]

theorem mem_arrayRemove {l : List String} {x a : String} :
    a ∈ arrayRemove l x ↔ a ∈ l ∧ a ≠ x := by
  unfold arrayRemove
  simp

/-! ### Channel store (`ChannelContext`) -/

/-- The `Channel` document shape of `ChannelContext`.
`createdAt` is an abstract timestamp; `inviteCode` is `none` where the
source stores `null`/absent. -/
structure Channel where
  id : String
  name : String
  description : Option String
  isPublic : Bool
  createdBy : String
  createdAt : Nat
  members : List String
  admins : List String
  inviteCode : Option String
deriving DecidableEq, Repr

/-- `ChannelInput` of the source (`name`, `description?`, `isPublic`). -/
structure ChannelInput where
  name : String
  description : Option String
  isPublic : Bool
deriving DecidableEq, Repr

/-- `Partial<ChannelInput>` as accepted by `updateChannel`. -/
structure ChannelUpdates where
  name : Option String
  description : Option String
  isPublic : Option Bool
deriving DecidableEq, Repr

/-- The distinct `Error` messages thrown by `ChannelContext` operations. -/
inductive ChannelError where
  | channelNotFound
  | alreadyMember
  | invalidCode
  | wrongChannelType
  | creatorCannotLeave
  | notAdmin
  | notCreator
  | cannotRemoveCreator
  | cannotDemoteCreator
  | notAMember
deriving DecidableEq, Repr

/-- `createChannel`: the document written for the new channel.  The caller
becomes creator, sole member and sole admin; a private channel gets the
freshly generated invite code, a public channel stores `null` (`none`). -/
def createChannelDoc (caller : String) (input : ChannelInput)
    (newId fresh : String) (now : Nat) : Channel :=
  { id := newId
    name := input.name
    description := input.description
    isPublic := input.isPublic
    createdBy := caller
    createdAt := now
    members := [caller]
    admins := [caller]
    inviteCode := if input.isPublic then none else some fresh }

/-- `updateChannel` applied to the fetched channel document: admins only;
spreads the partial update over the stored fields. -/
def updateChannelDoc (caller : String) (c : Channel) (u : ChannelUpdates) :
    Except ChannelError Channel :=
  if caller ∈ c.admins then
    .ok { c with
      name := u.name.getD c.name
      description := match u.description with
        | some d => some d
        | none => c.description
      isPublic := u.isPublic.getD c.isPublic }
  else .error .notAdmin

/-- `joinChannel` applied to the fetched channel document. -/
def joinChannelDoc (caller : String) (c : Channel) :
    Except ChannelError Channel :=
  if caller ∈ c.members then .error .alreadyMember
  else .ok { c with members := arrayUnion c.members caller }

/-- `leaveChannel` applied to the fetched channel document. -/
def leaveChannelDoc (caller : String) (c : Channel) :
    Except ChannelError Channel :=
  if c.createdBy = caller then .error .creatorCannotLeave
  else .ok { c with
    members := arrayRemove c.members caller
    admins := arrayRemove c.admins caller }

/-- `addMemberToChannel` applied to the fetched channel document. -/
def addMemberDoc (caller userId : String) (c : Channel) :
    Except ChannelError Channel :=
  if caller ∈ c.admins then
    .ok { c with members := arrayUnion c.members userId }
  else .error .notAdmin

/-- `removeMemberFromChannel` applied to the fetched channel document. -/
def removeMemberDoc (caller userId : String) (c : Channel) :
    Except ChannelError Channel :=
  if caller ∈ c.admins then
    if userId = c.createdBy then .error .cannotRemoveCreator
    else .ok { c with
      members := arrayRemove c.members userId
      admins := arrayRemove c.admins userId }
  else .error .notAdmin

/-- `promoteToAdmin` applied to the fetched channel document. -/
def promoteDoc (caller userId : String) (c : Channel) :
    Except ChannelError Channel :=
  if c.createdBy = caller then
    if userId ∈ c.members then
      .ok { c with admins := arrayUnion c.admins userId }
    else .error .notAMember
  else .error .notCreator

/-- `demoteFromAdmin` applied to the fetched channel document. -/
def demoteDoc (caller userId : String) (c : Channel) :
    Except ChannelError Channel :=
  if c.createdBy = caller then
    if userId = c.createdBy then .error .cannotDemoteCreator
    else .ok { c with admins := arrayRemove c.admins userId }
  else .error .notCreator

/-- `generateInviteCode` applied to the fetched channel document:
any admin overwrites the stored code with the fresh token. -/
def generateInviteCodeDoc (caller : String) (c : Channel) (fresh : String) :
    Except ChannelError Channel :=
  if caller ∈ c.admins then .ok { c with inviteCode := some fresh }
  else .error .notAdmin

/-- Firestore `getDoc` on the `channels` collection: fetch by document id. -/
def findById (s : List Channel) (cid : String) : Option Channel :=
  s.find? (fun c => c.id == cid)

/-- Firestore `updateDoc` on the `channels` collection: replace the
document with the given id. -/
def setChannel (s : List Channel) (cid : String) (c' : Channel) :
    List Channel :=
  s.map (fun c => if c.id == cid then c' else c)

/-- Fetch a channel by id, feed it to the per-document operation, and
write the result back; `Channel not found` when the fetch fails. -/
def onChannel (s : List Channel) (cid : String)
    (f : Channel → Except ChannelError Channel) :
    Except ChannelError (List Channel) :=
  match findById s cid with
  | none => .error .channelNotFound
  | some c => (f c).map (fun c' => setChannel s cid c')

/-- `joinChannelByInviteCode`: resolve the channel by a `where` query on
the stored code (Firestore yields the first match), then check
already-member, then reject public channels, then add the caller. -/
def joinByInviteCodeStore (caller : String) (s : List Channel)
    (code : String) : Except ChannelError (List Channel) :=
  match s.find? (fun c => c.inviteCode == some code) with
  | none => .error .invalidCode
  | some c =>
    if caller ∈ c.members then .error .alreadyMember
    else if c.isPublic then .error .wrongChannelType
    else .ok (setChannel s c.id { c with members := arrayUnion c.members caller })

/-- The mutation operations of the Channel Store, with generated ids,
invite codes and timestamps made explicit. -/
inductive ChannelOp where
  | create (input : ChannelInput) (newId fresh : String) (now : Nat)
  | update (channelId : String) (u : ChannelUpdates)
  | join (channelId : String)
  | joinByCode (code : String)
  | leave (channelId : String)
  | addMember (channelId userId : String)
  | removeMember (channelId userId : String)
  | promote (channelId userId : String)
  | demote (channelId userId : String)
  | genCode (channelId fresh : String)
deriving DecidableEq, Repr

/-- Dispatch a Channel Store mutation against the `channels` collection. -/
def applyChannelOp (caller : String) (op : ChannelOp) (s : List Channel) :
    Except ChannelError (List Channel) :=
  match op with
  | .create input newId fresh now =>
      .ok (s ++ [createChannelDoc caller input newId fresh now])
  | .update cid u => onChannel s cid (fun c => updateChannelDoc caller c u)
  | .join cid => onChannel s cid (joinChannelDoc caller)
  | .joinByCode code => joinByInviteCodeStore caller s code
  | .leave cid => onChannel s cid (leaveChannelDoc caller)
  | .addMember cid uid => onChannel s cid (addMemberDoc caller uid)
  | .removeMember cid uid => onChannel s cid (removeMemberDoc caller uid)
  | .promote cid uid => onChannel s cid (promoteDoc caller uid)
  | .demote cid uid => onChannel s cid (demoteDoc caller uid)
  | .genCode cid fresh => onChannel s cid (fun c => generateInviteCodeDoc caller c fresh)

/-- The collection after an operation, whether it succeeded or failed
(a thrown error happens before any write, so failure leaves the
collection unchanged). -/
def stepChannelOp (caller : String) (op : ChannelOp) (s : List Channel) :
    List Channel :=
  match applyChannelOp caller op s with
  | .ok s' => s'
  | .error _ => s

/-- The membership/role invariant of the spec:
`creator ∈ admins` and `admins ⊆ members`. -/
def ChannelInv (c : Channel) : Prop :=
  c.createdBy ∈ c.admins ∧ ∀ u ∈ c.admins, u ∈ c.members

instance (c : Channel) : Decidable (ChannelInv c) := by
  unfold ChannelInv; infer_instance

theorem mem_setChannel {s : List Channel} {cid : String} {c' x : Channel}
    (hx : x ∈ setChannel s cid c') : x = c' ∨ x ∈ s := by
  unfold setChannel at hx
  rcases List.mem_map.mp hx with ⟨y, hy, rfl⟩
  split
  · exact Or.inl rfl
  · exact Or.inr hy

theorem mem_of_findById {s : List Channel} {cid : String} {c : Channel}
    (h : findById s cid = some c) : c ∈ s :=
  List.mem_of_find?_eq_some h

theorem inv_createChannelDoc (caller : String) (input : ChannelInput)
    (newId fresh : String) (now : Nat) :
    ChannelInv (createChannelDoc caller input newId fresh now) := by
  constructor
  · simp [createChannelDoc]
  · intro u hu
    simp [createChannelDoc] at hu ⊢
    exact hu

theorem inv_updateChannelDoc {caller : String} {c : Channel}
    {u : ChannelUpdates} {c' : Channel} (hc : ChannelInv c)
    (h : updateChannelDoc caller c u = .ok c') : ChannelInv c' := by
  unfold updateChannelDoc at h
  split at h
  · cases h; exact hc
  · cases h

theorem inv_joinChannelDoc {caller : String} {c c' : Channel}
    (hc : ChannelInv c) (h : joinChannelDoc caller c = .ok c') :
    ChannelInv c' := by
  unfold joinChannelDoc at h
  split at h
  · cases h
  · cases h
    exact ⟨hc.1, fun u hu => mem_arrayUnion.mpr (Or.inl (hc.2 u hu))⟩

theorem inv_leaveChannelDoc {caller : String} {c c' : Channel}
    (hc : ChannelInv c) (h : leaveChannelDoc caller c = .ok c') :
    ChannelInv c' := by
  unfold leaveChannelDoc at h
  split at h
  · cases h
  · next hne =>
    cases h
    constructor
    · exact mem_arrayRemove.mpr ⟨hc.1, hne⟩
    · intro u hu
      have hu' := mem_arrayRemove.mp hu
      exact mem_arrayRemove.mpr ⟨hc.2 u hu'.1, hu'.2⟩

theorem inv_addMemberDoc {caller userId : String} {c c' : Channel}
    (hc : ChannelInv c) (h : addMemberDoc caller userId c = .ok c') :
    ChannelInv c' := by
  unfold addMemberDoc at h
  split at h
  · cases h
    exact ⟨hc.1, fun u hu => mem_arrayUnion.mpr (Or.inl (hc.2 u hu))⟩
  · cases h

theorem inv_removeMemberDoc {caller userId : String} {c c' : Channel}
    (hc : ChannelInv c) (h : removeMemberDoc caller userId c = .ok c') :
    ChannelInv c' := by
  unfold removeMemberDoc at h
  split at h
  · split at h
    · cases h
    · next hne =>
      cases h
      constructor
      · exact mem_arrayRemove.mpr ⟨hc.1, fun hcon => hne hcon.symm⟩
      · intro u hu
        have hu' := mem_arrayRemove.mp hu
        exact mem_arrayRemove.mpr ⟨hc.2 u hu'.1, hu'.2⟩
  · cases h

theorem inv_promoteDoc {caller userId : String} {c c' : Channel}
    (hc : ChannelInv c) (h : promoteDoc caller userId c = .ok c') :
    ChannelInv c' := by
  unfold promoteDoc at h
  split at h
  · split at h
    · next hmem =>
      cases h
      constructor
      · exact mem_arrayUnion.mpr (Or.inl hc.1)
      · intro u hu
        rcases mem_arrayUnion.mp hu with h1 | rfl
        · exact hc.2 u h1
        · exact hmem
    · cases h
  · cases h

theorem inv_demoteDoc {caller userId : String} {c c' : Channel}
    (hc : ChannelInv c) (h : demoteDoc caller userId c = .ok c') :
    ChannelInv c' := by
  unfold demoteDoc at h
  split at h
  · split at h
    · cases h
    · next hne =>
      cases h
      constructor
      · exact mem_arrayRemove.mpr ⟨hc.1, fun hcon => hne hcon.symm⟩
      · intro u hu
        exact hc.2 u (mem_arrayRemove.mp hu).1
  · cases h

theorem inv_generateInviteCodeDoc {caller : String} {c : Channel}
    {fresh : String} {c' : Channel} (hc : ChannelInv c)
    (h : generateInviteCodeDoc caller c fresh = .ok c') : ChannelInv c' := by
  unfold generateInviteCodeDoc at h
  split at h
  · cases h; exact hc
  · cases h

/-- If the per-document operation preserves the invariant, so does the
fetch/apply/write-back cycle, whether it succeeds or fails. -/
theorem step_onChannel_inv {s : List Channel} {cid : String}
    {f : Channel → Except ChannelError Channel}
    (hf : ∀ c ∈ s, ∀ c', f c = .ok c' → ChannelInv c')
    (h : ∀ c ∈ s, ChannelInv c) :
    ∀ x ∈ (match onChannel s cid f with | .ok s' => s' | .error _ => s),
      ChannelInv x := by
  intro x hx
  cases hres : onChannel s cid f with
  | error e =>
    rw [hres] at hx
    exact h x hx
  | ok s' =>
    rw [hres] at hx
    simp only at hx
    unfold onChannel at hres
    cases hfind : findById s cid with
    | none =>
      rw [hfind] at hres
      exact absurd hres (by simp)
    | some c =>
      rw [hfind] at hres
      simp only at hres
      cases hfc : f c with
      | error e =>
        rw [hfc] at hres
        exact absurd hres (by simp [Except.map])
      | ok c' =>
        rw [hfc] at hres
        simp only [Except.map] at hres
        cases hres
        rcases mem_setChannel hx with rfl | hxs
        · exact hf c (mem_of_findById hfind) _ hfc
        · exact h x hxs

/-- Claim C1: every Channel Store mutation operation (createChannel,
joinChannel, joinChannelByInviteCode, leaveChannel, addMemberToChannel,
removeMemberFromChannel, promoteToAdmin, demoteFromAdmin, updateChannel,
generateInviteCode) preserves the invariant `creator ∈ admins` and
`admins ⊆ members` on every channel of the collection, whether the
operation succeeds or fails. -/
theorem channelStore_mutations_preserve_invariant (caller : String)
    (op : ChannelOp) (s : List Channel) (h : ∀ c ∈ s, ChannelInv c) :
    ∀ c ∈ stepChannelOp caller op s, ChannelInv c := by
  cases op with
  | create input newId fresh now =>
    intro c hc
    simp only [stepChannelOp, applyChannelOp] at hc
    rcases List.mem_append.mp hc with h1 | h2
    · exact h c h1
    · rw [List.mem_singleton.mp h2]
      exact inv_createChannelDoc caller input newId fresh now
  | update cid u =>
    intro c hc
    simp only [stepChannelOp, applyChannelOp] at hc
    exact step_onChannel_inv
      (fun c hcs c' hok => inv_updateChannelDoc (h c hcs) hok) h c hc
  | join cid =>
    intro c hc
    simp only [stepChannelOp, applyChannelOp] at hc
    exact step_onChannel_inv
      (fun c hcs c' hok => inv_joinChannelDoc (h c hcs) hok) h c hc
  | joinByCode code =>
    intro c hc
    cases hres : applyChannelOp caller (.joinByCode code) s with
    | error e =>
      simp only [stepChannelOp, hres] at hc
      exact h c hc
    | ok s' =>
      simp only [stepChannelOp, hres] at hc
      have hres' : joinByInviteCodeStore caller s code = .ok s' := hres
      unfold joinByInviteCodeStore at hres'
      cases hfind : List.find? (fun c => c.inviteCode == some code) s with
      | none =>
        rw [hfind] at hres'
        exact absurd hres' (by simp)
      | some c0 =>
        rw [hfind] at hres'
        simp only at hres'
        split at hres'
        · exact absurd hres' (by simp)
        · split at hres'
          · exact absurd hres' (by simp)
          · cases hres'
            rcases mem_setChannel hc with rfl | hcs
            · have hc0 := h c0 (List.mem_of_find?_eq_some hfind)
              exact ⟨hc0.1, fun u hu => mem_arrayUnion.mpr (Or.inl (hc0.2 u hu))⟩
            · exact h c hcs
  | leave cid =>
    intro c hc
    simp only [stepChannelOp, applyChannelOp] at hc
    exact step_onChannel_inv
      (fun c hcs c' hok => inv_leaveChannelDoc (h c hcs) hok) h c hc
  | addMember cid uid =>
    intro c hc
    simp only [stepChannelOp, applyChannelOp] at hc
    exact step_onChannel_inv
      (fun c hcs c' hok => inv_addMemberDoc (h c hcs) hok) h c hc
  | removeMember cid uid =>
    intro c hc
    simp only [stepChannelOp, applyChannelOp] at hc
    exact step_onChannel_inv
      (fun c hcs c' hok => inv_removeMemberDoc (h c hcs) hok) h c hc
  | promote cid uid =>
    intro c hc
    simp only [stepChannelOp, applyChannelOp] at hc
    exact step_onChannel_inv
      (fun c hcs c' hok => inv_promoteDoc (h c hcs) hok) h c hc
  | demote cid uid =>
    intro c hc
    simp only [stepChannelOp, applyChannelOp] at hc
    exact step_onChannel_inv
      (fun c hcs c' hok => inv_demoteDoc (h c hcs) hok) h c hc
  | genCode cid fresh =>
    intro c hc
    simp only [stepChannelOp, applyChannelOp] at hc
    exact step_onChannel_inv
      (fun c hcs c' hok => inv_generateInviteCodeDoc (h c hcs) hok) h c hc

/-- A concrete two-member channel used to instantiate the membership
invariant theorems. -/
def demoStore : List Channel :=
  [{ id := "ch1", name := "general", description := none, isPublic := true,
     createdBy := "u1", createdAt := 0, members := ["u1", "u2"],
     admins := ["u1"], inviteCode := none }]

/-- The demo channel after the creator promotes `u2` to admin. -/
def demoStoreAfter : Channel :=
  { id := "ch1", name := "general", description := none, isPublic := true,
    createdBy := "u1", createdAt := 0, members := ["u1", "u2"],
    admins := ["u1", "u2"], inviteCode := none }

set_option maxRecDepth 4000 in
/-- Witness for claim C1: the invariant theorem applied to a concrete
store and a concrete `promoteToAdmin` call, instantiated at the
resulting channel. -/
theorem channelStore_mutations_preserve_invariant_witness :
    ChannelInv demoStoreAfter :=
  channelStore_mutations_preserve_invariant "u1" (.promote "ch1" "u2")
    demoStore (by decide) demoStoreAfter (by decide)

/-- Claim C8: for an existing channel, `joinChannel` fails with
AlreadyMember when the caller is already in `members`, and otherwise adds
the caller to `members` regardless of the channel's visibility flag — no
hypothesis on `isPublic` is needed for the success case, so joining a
private channel by id is not rejected. -/
theorem joinChannel_ignores_visibility (caller : String) (s : List Channel)
    (cid : String) (c : Channel) (hfind : findById s cid = some c) :
    (caller ∈ c.members →
       applyChannelOp caller (.join cid) s = .error .alreadyMember) ∧
    (caller ∉ c.members →
       applyChannelOp caller (.join cid) s =
         .ok (setChannel s cid { c with members := arrayUnion c.members caller }) ∧
       caller ∈ arrayUnion c.members caller) := by
  constructor
  · intro hmem
    simp only [applyChannelOp, onChannel, hfind]
    simp [joinChannelDoc, hmem, Except.map]
  · intro hmem
    refine ⟨?_, mem_arrayUnion.mpr (Or.inr rfl)⟩
    simp only [applyChannelOp, onChannel, hfind]
    simp [joinChannelDoc, hmem, Except.map]

/-- A concrete private channel whose creator is `u1` and whose current
invite code is `K1`. -/
def privChannel : Channel :=
  { id := "p1", name := "secret", description := none, isPublic := false,
    createdBy := "u1", createdAt := 0, members := ["u1"], admins := ["u1"],
    inviteCode := some "K1" }

/-- Witness for claim C8: a non-member joins a private channel by id and
is added to its members. -/
theorem joinChannel_ignores_visibility_witness :
    applyChannelOp "u2" (.join "p1") [privChannel] =
      .ok (setChannel [privChannel] "p1"
        { privChannel with members := arrayUnion privChannel.members "u2" }) :=
  ((joinChannel_ignores_visibility "u2" [privChannel] "p1" privChannel
    (by decide)).2 (by decide)).1

/-- Claim C5: `joinChannelByInviteCode(code)` fails with InvalidCode when
no channel's stored code matches, with AlreadyMember when the matched
channel already contains the caller, with WrongChannelType when the
matched channel is public; every failure leaves the collection (hence
every membership) unchanged; on success the caller is added to the
matched channel's members. -/
theorem joinByInviteCode_cases (caller : String) (s : List Channel)
    (code : String) :
    (List.find? (fun c => c.inviteCode == some code) s = none →
       applyChannelOp caller (.joinByCode code) s = .error .invalidCode) ∧
    (∀ c, List.find? (fun c => c.inviteCode == some code) s = some c →
       (caller ∈ c.members →
          applyChannelOp caller (.joinByCode code) s = .error .alreadyMember) ∧
       (caller ∉ c.members → c.isPublic = true →
          applyChannelOp caller (.joinByCode code) s = .error .wrongChannelType) ∧
       (caller ∉ c.members → c.isPublic = false →
          applyChannelOp caller (.joinByCode code) s =
            .ok (setChannel s c.id
              { c with members := arrayUnion c.members caller }) ∧
          caller ∈ arrayUnion c.members caller)) ∧
    (∀ e, applyChannelOp caller (.joinByCode code) s = .error e →
       stepChannelOp caller (.joinByCode code) s = s) := by
  refine ⟨?_, ?_, ?_⟩
  · intro hnone
    simp [applyChannelOp, joinByInviteCodeStore, hnone]
  · intro c hfind
    refine ⟨?_, ?_, ?_⟩
    · intro hmem
      simp [applyChannelOp, joinByInviteCodeStore, hfind, hmem]
    · intro hmem hpub
      simp [applyChannelOp, joinByInviteCodeStore, hfind, hmem, hpub]
    · intro hmem hpriv
      refine ⟨?_, mem_arrayUnion.mpr (Or.inr rfl)⟩
      simp [applyChannelOp, joinByInviteCodeStore, hfind, hmem, hpriv]
  · intro e herr
    unfold stepChannelOp
    rw [herr]

/-- Witness for claim C5: joining the demo private channel with its valid
code succeeds and adds the caller. -/
theorem joinByInviteCode_cases_witness :
    applyChannelOp "u2" (.joinByCode "K1") [privChannel] =
      .ok (setChannel [privChannel] privChannel.id
        { privChannel with members := arrayUnion privChannel.members "u2" }) :=
  (((joinByInviteCode_cases "u2" [privChannel] "K1").2.1 privChannel
    (by decide)).2.2 (by decide) (by decide)).1

/-- The channel collections reachable from an empty deployment by Channel
Store mutation operations (performed by arbitrary signed-in callers). -/
inductive ReachableStore : List Channel → Prop where
  | empty : ReachableStore []
  | step (caller : String) (op : ChannelOp) {s : List Channel} :
      ReachableStore s → ReachableStore (stepChannelOp caller op s)

/-- A reachable store holding a public channel that carries an invite
code: create a public channel, then let its creator (an admin) call
`generateInviteCode`, which never checks the visibility flag. -/
def pubCodeStore : List Channel :=
  stepChannelOp "u1" (.genCode "ch1" "K1")
    (stepChannelOp "u1"
      (.create { name := "general", description := none, isPublic := true }
        "ch1" "X" 0) [])

theorem reachable_pubCodeStore : ReachableStore pubCodeStore :=
  .step "u1" (.genCode "ch1" "K1")
    (.step "u1"
      (.create { name := "general", description := none, isPublic := true }
        "ch1" "X" 0) .empty)

set_option maxRecDepth 4000 in
/-- Counterexample to claim C3: it is not the case that every reachable
channel has an invite code iff it is private — `generateInviteCode`
succeeds on a public channel, leaving a public channel with a stored
code. -/
theorem inviteCode_iff_private_not_reachable_invariant :
    ¬ (∀ s, ReachableStore s →
        ∀ c ∈ s, (c.inviteCode.isSome = true ↔ c.isPublic = false)) := by
  intro hall
  exact absurd (hall pubCodeStore reachable_pubCodeStore) (by decide)

theorem mem_setChannel_iff {s : List Channel} {cid : String} {c' y : Channel} :
    y ∈ setChannel s cid c' ↔
      ∃ c ∈ s, y = if c.id == cid then c' else c := by
  unfold setChannel
  constructor
  · intro hy
    rcases List.mem_map.mp hy with ⟨c, hc, hcy⟩
    exact ⟨c, hc, hcy.symm⟩
  · rintro ⟨c, hc, rfl⟩
    exact List.mem_map.mpr ⟨c, hc, rfl⟩

theorem find?_code_setChannel_none {x' : Channel} {xid k1 : String}
    (hx' : x'.inviteCode ≠ some k1) (s : List Channel)
    (h : ∀ c ∈ s, c.inviteCode = some k1 → c.id = xid) :
    List.find? (fun c => c.inviteCode == some k1) (setChannel s xid x') =
      none := by
  apply List.find?_eq_none.mpr
  intro y hy
  rcases mem_setChannel_iff.mp hy with ⟨c, hcs, rfl⟩
  split
  · simpa using hx'
  · next hne =>
    intro hcon
    have hck1 : c.inviteCode = some k1 := by simpa using hcon
    exact hne (by simpa using h c hcs hck1)

theorem find?_code_setChannel_some {x' : Channel} {xid k2 : String}
    (hx' : x'.inviteCode = some k2) (s : List Channel)
    (hex : ∃ c ∈ s, c.id = xid)
    (hk2 : ∀ c ∈ s, c.inviteCode ≠ some k2) :
    List.find? (fun c => c.inviteCode == some k2) (setChannel s xid x') =
      some x' := by
  induction s with
  | nil => simp at hex
  | cons c rest ih =>
    unfold setChannel
    simp only [List.map_cons]
    by_cases hcid : c.id = xid
    · have hfc : (if (c.id == xid) = true then x' else c) = x' := by
        simp [hcid]
      rw [hfc, List.find?_cons_of_pos _ (by simp [hx'])]
    · have hfc : (if (c.id == xid) = true then x' else c) = c := by
        simp [hcid]
      rw [hfc, List.find?_cons_of_neg _ (by
        simpa using hk2 c (List.mem_cons_self c rest))]
      have hex' : ∃ c ∈ rest, c.id = xid := by
        rcases hex with ⟨d, hd, hdid⟩
        rcases List.mem_cons.mp hd with rfl | hdr
        · exact absurd hdid hcid
        · exact ⟨d, hdr, hdid⟩
      exact ih hex' (fun d hd => hk2 d (List.mem_cons_of_mem c hd))

/-- Claim C3 (amended): a freshly created channel carries an invite code
iff it is private, and `generateInviteCode` — callable by any admin,
with no check of the visibility flag — overwrites the stored code with
the fresh token, so that (when codes are unique across the collection)
joining with the old code K1 fails with InvalidCode and a non-member
joining the private channel with the new code K2 succeeds.  The
"code iff private" shape is *not* an invariant of all reachable stores
(see the counterexample); it holds at creation time only. -/
theorem inviteCode_rotation (caller u : String) (s : List Channel)
    (x : Channel) (k1 k2 : String)
    (hfind : findById s x.id = some x)
    (hpriv : x.isPublic = false)
    (hadmin : caller ∈ x.admins)
    (hk1 : ∀ c ∈ s, c.inviteCode = some k1 → c.id = x.id)
    (hk2 : ∀ c ∈ s, c.inviteCode ≠ some k2)
    (hne : k1 ≠ k2)
    (hmem : u ∉ x.members) :
    (∀ (caller' : String) (input : ChannelInput) (newId fresh : String)
       (now : Nat),
       (createChannelDoc caller' input newId fresh now).inviteCode.isSome
         = !input.isPublic) ∧
    stepChannelOp caller (.genCode x.id k2) s =
      setChannel s x.id { x with inviteCode := some k2 } ∧
    applyChannelOp u (.joinByCode k1)
      (setChannel s x.id { x with inviteCode := some k2 }) =
        .error .invalidCode ∧
    ∃ s'', applyChannelOp u (.joinByCode k2)
        (setChannel s x.id { x with inviteCode := some k2 }) = .ok s'' ∧
      ∃ c ∈ s'', c.id = x.id ∧ u ∈ c.members := by
  have hx'code : ({ x with inviteCode := some k2 } : Channel).inviteCode
      = some k2 := rfl
  refine ⟨?_, ?_, ?_, ?_⟩
  · intro caller' input newId fresh now
    cases hpub : input.isPublic <;> simp [createChannelDoc, hpub]
  · unfold stepChannelOp
    simp [applyChannelOp, onChannel, hfind, generateInviteCodeDoc, hadmin,
      Except.map]
  · have hnone := @find?_code_setChannel_none
      { x with inviteCode := some k2 } x.id k1
      (by simp [Ne.symm hne]) s hk1
    simp [applyChannelOp, joinByInviteCodeStore, hnone]
  · have hsome := @find?_code_setChannel_some
      { x with inviteCode := some k2 } x.id k2
      rfl s ⟨x, mem_of_findById hfind, rfl⟩ hk2
    have hs2 : applyChannelOp u (.joinByCode k2)
        (setChannel s x.id { x with inviteCode := some k2 }) =
        .ok (setChannel (setChannel s x.id { x with inviteCode := some k2 })
          x.id { { x with inviteCode := some k2 } with
                 members := arrayUnion x.members u }) := by
      simp only [applyChannelOp, joinByInviteCodeStore, hsome]
      simp [hmem, hpriv]
    refine ⟨_, hs2, ?_⟩
    refine ⟨{ { x with inviteCode := some k2 } with
              members := arrayUnion x.members u }, ?_, rfl,
            mem_arrayUnion.mpr (Or.inr rfl)⟩
    apply mem_setChannel_iff.mpr
    refine ⟨{ x with inviteCode := some k2 }, ?_, by simp⟩
    apply mem_setChannel_iff.mpr
    exact ⟨x, mem_of_findById hfind, by simp⟩

/-- Witness for the amended claim C3, at the concrete private channel
with code `K1` rotated to `K2` and joined by a non-member. -/
theorem inviteCode_rotation_witness :
    applyChannelOp "u2" (.joinByCode "K1")
      (setChannel [privChannel] privChannel.id
        { privChannel with inviteCode := some "K2" }) =
      .error .invalidCode :=
  (inviteCode_rotation "u1" "u2" [privChannel] privChannel "K1" "K2"
    (by decide) (by decide) (by decide) (by decide) (by decide)
    (by decide) (by decide)).2.2.1

/-! ### Task store (`TaskContext`) -/

inductive Priority where
  | low | medium | high
deriving DecidableEq, Repr

inductive TaskStatus where
  | not_started | in_progress | completed
deriving DecidableEq, Repr

inductive TaskKind where
  | regular | shopping
deriving DecidableEq, Repr

inductive TaskPrivacy where
  | «public» | «private»
deriving DecidableEq, Repr

/-- The `ShoppingItem` shape of `TaskContext`. -/
structure ShoppingItem where
  id : String
  name : String
  completed : Bool
  quantity : Option Nat
deriving DecidableEq, Repr

/-- The `Task` document shape of `TaskContext`.  `type` is the optional
task-kind discriminator of the source; `shoppingItems` is `none` where
the field is absent. -/
structure Task where
  id : String
  title : String
  description : Option String
  dueDate : Option Nat
  dueTime : Option String
  priority : Priority
  completed : Bool
  channelId : Option String
  createdBy : String
  createdAt : Nat
  type : Option TaskKind
  status : TaskStatus
  shoppingItems : Option (List ShoppingItem)
  privacy : TaskPrivacy
deriving DecidableEq, Repr

/-- A shopping item as supplied by callers of `addTask`/`updateTask`
(`Omit<ShoppingItem, 'id'>`; `updateTask` additionally reads `item.id`
and defends `item.completed` with `|| false`, so both are optional
here). -/
structure ShoppingItemInput where
  id : Option String
  name : String
  completed : Option Bool
  quantity : Option Nat
deriving DecidableEq, Repr

/-- The `TaskInput` accepted by `addTask`, and — with every field made
optional — the `Partial<TaskInput>` accepted by `updateTask`.  Note that
it contains neither `completed` nor `status`. -/
structure TaskInput where
  title : String
  description : Option String
  dueDate : Option Nat
  dueTime : Option String
  priority : Priority
  channelId : Option String
  type : Option TaskKind
  shoppingItems : Option (List ShoppingItemInput)
  privacy : Option TaskPrivacy
deriving DecidableEq, Repr

/-- `Partial<TaskInput>` as accepted by `updateTask`. -/
structure TaskUpdates where
  title : Option String
  description : Option String
  dueDate : Option Nat
  dueTime : Option String
  priority : Option Priority
  channelId : Option String
  type : Option TaskKind
  shoppingItems : Option (List ShoppingItemInput)
  privacy : Option TaskPrivacy
deriving DecidableEq, Repr

/-- The single failure mode of `toggleShoppingItem`:
`'Task or shopping items not found'`, thrown when the task cannot be
found or its `shoppingItems` field is absent. -/
inductive TaskError where
  | taskOrItemsNotFound
deriving DecidableEq, Repr

/-- `addTask`: the document written for the new task.  `fresh` supplies
the `crypto.randomUUID()` value for the item at each position. -/
def addTask (caller : String) (input : TaskInput) (fresh : Nat → String)
    (newId : String) (now : Nat) : Task :=
  { id := newId
    title := input.title
    description := input.description
    dueDate := input.dueDate
    dueTime := input.dueTime
    priority := input.priority
    completed := false
    channelId := input.channelId
    createdBy := caller
    createdAt := now
    type := some (input.type.getD .regular)
    status := .not_started
    shoppingItems := input.shoppingItems.map (fun items =>
      items.enum.map (fun p =>
        { id := fresh p.1, name := p.2.name, completed := false,
          quantity := p.2.quantity }))
    privacy := input.privacy.getD .«private» }

/-- `updateTask`: partial update of the stored task.  Supplied fields
override; a supplied `shoppingItems` list replaces the stored one, each
item keeping its id or receiving a fresh one, with `completed`
defaulting to `false`.  The top-level `completed` and `status` fields do
not appear in `TaskUpdates` and are never written. -/
def updateTask (t : Task) (u : TaskUpdates) (fresh : Nat → String) : Task :=
  { t with
    title := u.title.getD t.title
    description := match u.description with
      | some d => some d
      | none => t.description
    dueDate := match u.dueDate with
      | some d => some d
      | none => t.dueDate
    dueTime := match u.dueTime with
      | some d => some d
      | none => t.dueTime
    priority := u.priority.getD t.priority
    channelId := match u.channelId with
      | some cid => some cid
      | none => t.channelId
    type := match u.type with
      | some k => some k
      | none => t.type
    privacy := u.privacy.getD t.privacy
    shoppingItems := match u.shoppingItems with
      | none => t.shoppingItems
      | some items => some (items.enum.map (fun p =>
          { id := p.2.id.getD (fresh p.1), name := p.2.name,
            completed := p.2.completed.getD false,
            quantity := p.2.quantity })) }

/-- `toggleTaskCompletion` applied to the current task record: for a
shopping task with a present item list, force every item's flag to the
given value and set status completed/not_started; otherwise set the flag
and keep in_progress or fall back to not_started. -/
def toggleTaskCompletion (t : Task) (completed : Bool) : Task :=
  match t.type, t.shoppingItems with
  | some .shopping, some items =>
    { t with
      completed := completed
      status := if completed then .completed else .not_started
      shoppingItems := some (items.map (fun item =>
        { item with completed := completed })) }
  | _, _ =>
    { t with
      completed := completed
      status := if completed then .completed
        else if t.status = .in_progress then .in_progress
        else .not_started }

/-- `toggleShoppingItem` applied to the current task record: fails when
the `shoppingItems` field is absent; otherwise updates the items whose
id matches, then recomputes `status` and `completed` over the entire
updated list. -/
def toggleShoppingItem (t : Task) (itemId : String) (completed : Bool) :
    Except TaskError Task :=
  match t.shoppingItems with
  | none => .error .taskOrItemsNotFound
  | some items =>
    let updatedItems := items.map (fun item =>
      if item.id = itemId then { item with completed := completed }
      else item)
    let allCompleted := updatedItems.all (fun item => item.completed)
    let anyCompleted := updatedItems.any (fun item => item.completed)
    let newStatus : TaskStatus :=
      if allCompleted then .completed
      else if anyCompleted then .in_progress
      else .not_started
    .ok { t with
      shoppingItems := some updatedItems
      status := newStatus
      completed := allCompleted }

/-- Fold a sequence of `toggleShoppingItem` calls over a task; a failing
call (which writes nothing) leaves the task unchanged, so the result is
the state after all the successful calls. -/
def applyToggles (t : Task) (calls : List (String × Bool)) : Task :=
  calls.foldl (fun acc call =>
    match toggleShoppingItem acc call.1 call.2 with
    | .ok t' => t'
    | .error _ => acc) t

/-- The stored item list of a task (empty when the field is absent). -/
def itemsOf (t : Task) : List ShoppingItem :=
  t.shoppingItems.getD []

/-- The status-derivation rule over an item list, as computed by
`toggleShoppingItem`. -/
def derivedStatus (items : List ShoppingItem) : TaskStatus :=
  if items.all (fun item => item.completed) then .completed
  else if items.any (fun item => item.completed) then .in_progress
  else .not_started

/-- Claim C4: `toggleTaskCompletion(id, b)` sets the `completed` flag to
`b` and recomputes `status`: `b = true` yields status completed;
uncompleting a previously-completed regular task reverts the status to
in_progress exactly when the task had been started (its status field is
in_progress), else to not_started; and on a shopping-kind task every
shopping item's completed flag is forced to `b`. -/
theorem toggleTaskCompletion_spec (t : Task) (b : Bool) :
    (toggleTaskCompletion t b).completed = b ∧
    (b = true → (toggleTaskCompletion t b).status = .completed) ∧
    (t.type ≠ some .shopping → t.completed = true → b = false →
      (toggleTaskCompletion t b).status =
        (if t.status = .in_progress then .in_progress else .not_started)) ∧
    (t.type = some .shopping →
      ∀ i ∈ itemsOf (toggleTaskCompletion t b), i.completed = b) := by
  refine ⟨?_, ?_, ?_, ?_⟩
  · cases htype : t.type with
    | none =>
      cases hitems : t.shoppingItems <;>
        simp [toggleTaskCompletion, htype, hitems]
    | some k =>
      cases k <;> cases hitems : t.shoppingItems <;>
        simp [toggleTaskCompletion, htype, hitems]
  · intro hb
    subst hb
    cases htype : t.type with
    | none =>
      cases hitems : t.shoppingItems <;>
        simp [toggleTaskCompletion, htype, hitems]
    | some k =>
      cases k <;> cases hitems : t.shoppingItems <;>
        simp [toggleTaskCompletion, htype, hitems]
  · intro hreg hcomp hb
    subst hb
    cases htype : t.type with
    | none =>
      cases hitems : t.shoppingItems <;>
        simp [toggleTaskCompletion, htype, hitems]
    | some k =>
      cases k with
      | regular =>
        cases hitems : t.shoppingItems <;>
          simp [toggleTaskCompletion, htype, hitems]
      | shopping => exact absurd htype hreg
  · intro hshop i hi
    cases hitems : t.shoppingItems with
    | none =>
      simp [toggleTaskCompletion, hshop, hitems, itemsOf] at hi
    | some items =>
      simp [toggleTaskCompletion, hshop, hitems, itemsOf] at hi
      rcases hi with ⟨a, ha, rfl⟩
      rfl

/-- A concrete regular task that is completed and was started. -/
def regDoneTask : Task :=
  { id := "t1", title := "report", description := none, dueDate := none,
    dueTime := none, priority := .high, completed := true, channelId := none,
    createdBy := "u1", createdAt := 0, type := some .regular,
    status := .in_progress, shoppingItems := none, privacy := .«private» }

/-- Witness for claim C4: uncompleting a started regular task reverts
its status to in_progress. -/
theorem toggleTaskCompletion_spec_witness :
    (toggleTaskCompletion regDoneTask false).status = .in_progress := by
  have h3 := (toggleTaskCompletion_spec regDoneTask false).2.2.1
    (by decide) (by decide) rfl
  rw [h3]
  decide

/-- The state maintained by `toggleShoppingItem` on a shopping task with
a nonempty item list: the stored status and completed flag agree with
the derivation rule over the stored items. -/
def ShoppingStatusInv (t : Task) : Prop :=
  ∃ items, t.shoppingItems = some items ∧ items ≠ [] ∧
    t.status = derivedStatus items ∧
    t.completed = items.all (fun i => i.completed)

theorem inv_addTask (caller : String) (input : TaskInput)
    (fresh : Nat → String) (newId : String) (now : Nat)
    (l : List ShoppingItemInput) (hl : input.shoppingItems = some l)
    (hne : l ≠ []) :
    ShoppingStatusInv (addTask caller input fresh newId now) := by
  refine ⟨l.enum.map (fun p =>
    { id := fresh p.1, name := p.2.name, completed := false,
      quantity := p.2.quantity }), ?_, ?_, ?_, ?_⟩
  · simp [addTask, hl]
  · simp
    exact hne
  · rcases List.exists_mem_of_ne_nil l hne with ⟨x0, hx0⟩
    have hmem : (⟨0, x0⟩ : Nat × ShoppingItemInput) ∈ l.enum ∨ True := Or.inr trivial
    have hA : (l.enum.map (fun p =>
        ({ id := fresh p.1, name := p.2.name, completed := false,
           quantity := p.2.quantity } : ShoppingItem))).all
        (fun i => i.completed) = false := by
      apply Bool.eq_false_iff.mpr
      intro hall
      have hne' : l.enum ≠ [] := by simpa using hne
      rcases List.exists_mem_of_ne_nil l.enum hne' with ⟨p0, hp0⟩
      have := List.all_eq_true.mp hall _ (List.mem_map.mpr ⟨p0, hp0, rfl⟩)
      simp at this
    have hN : (l.enum.map (fun p =>
        ({ id := fresh p.1, name := p.2.name, completed := false,
           quantity := p.2.quantity } : ShoppingItem))).any
        (fun i => i.completed) = false := by
      apply Bool.eq_false_iff.mpr
      intro hany
      rcases List.any_eq_true.mp hany with ⟨i, hi, hit⟩
      rcases List.mem_map.mp hi with ⟨p, hp, rfl⟩
      simp at hit
    simp [addTask, derivedStatus, hA, hN]
  · have hA : (l.enum.map (fun p =>
        ({ id := fresh p.1, name := p.2.name, completed := false,
           quantity := p.2.quantity } : ShoppingItem))).all
        (fun i => i.completed) = false := by
      apply Bool.eq_false_iff.mpr
      intro hall
      have hne' : l.enum ≠ [] := by simpa using hne
      rcases List.exists_mem_of_ne_nil l.enum hne' with ⟨p0, hp0⟩
      have := List.all_eq_true.mp hall _ (List.mem_map.mpr ⟨p0, hp0, rfl⟩)
      simp at this
    simp [addTask, hA]

theorem inv_toggleShoppingItem (t : Task) (itemId : String) (b : Bool)
    (h : ShoppingStatusInv t) :
    ShoppingStatusInv (match toggleShoppingItem t itemId b with
      | .ok t' => t'
      | .error _ => t) := by
  rcases h with ⟨items, hitems, hne, _, _⟩
  simp only [toggleShoppingItem, hitems]
  refine ⟨_, rfl, ?_, rfl, rfl⟩
  simpa using hne

theorem inv_applyToggles (t : Task) (calls : List (String × Bool))
    (h : ShoppingStatusInv t) : ShoppingStatusInv (applyToggles t calls) := by
  induction calls generalizing t with
  | nil => exact h
  | cons c rest ih =>
    simp only [applyToggles, List.foldl_cons]
    exact ih _ (inv_toggleShoppingItem t c.1 c.2 h)

theorem shoppingInv_characterization (t : Task) (h : ShoppingStatusInv t) :
    ((t.status = .completed) ↔ ∀ i ∈ itemsOf t, i.completed = true) ∧
    ((t.status = .not_started) ↔ ∀ i ∈ itemsOf t, i.completed = false) ∧
    ((t.status = .in_progress) ↔
      ((∃ i ∈ itemsOf t, i.completed = true) ∧
       ∃ i ∈ itemsOf t, i.completed = false)) ∧
    (t.completed = true ↔ t.status = .completed) := by
  rcases h with ⟨items, hitems, hne, hstat, hcomp⟩
  have hio : itemsOf t = items := by simp [itemsOf, hitems]
  rcases List.exists_mem_of_ne_nil items hne with ⟨i0, hi0⟩
  by_cases hall : ∀ i ∈ items, i.completed = true
  · have hA : items.all (fun i => i.completed) = true :=
      List.all_eq_true.mpr hall
    have hst : t.status = .completed := by
      rw [hstat]; simp [derivedStatus, hA]
    have hcm : t.completed = true := by rw [hcomp, hA]
    refine ⟨?_, ?_, ?_, ?_⟩
    · rw [hio, hst]; exact iff_of_true rfl hall
    · rw [hio, hst]
      constructor
      · intro h'; exact absurd h' (by decide)
      · intro hf
        have h1 := hall i0 hi0
        have h2 := hf i0 hi0
        rw [h1] at h2
        exact absurd h2 (by decide)
    · rw [hio, hst]
      constructor
      · intro h'; exact absurd h' (by decide)
      · rintro ⟨-, ⟨j, hj, hjf⟩⟩
        have := hall j hj
        rw [this] at hjf
        exact absurd hjf (by decide)
    · rw [hst, hcm]
      exact iff_of_true rfl rfl
  · have hexf : ∃ i ∈ items, i.completed = false := by
      push_neg at hall
      rcases hall with ⟨i, hi, hif⟩
      exact ⟨i, hi, Bool.eq_false_iff.mpr hif⟩
    have hA : items.all (fun i => i.completed) = false := by
      rcases hexf with ⟨i, hi, hif⟩
      apply Bool.eq_false_iff.mpr
      intro hA'
      have := List.all_eq_true.mp hA' i hi
      rw [hif] at this
      exact absurd this (by decide)
    by_cases hany : ∃ i ∈ items, i.completed = true
    · have hN : items.any (fun i => i.completed) = true :=
        List.any_eq_true.mpr hany
      have hst : t.status = .in_progress := by
        rw [hstat]; simp [derivedStatus, hA, hN]
      have hcm : t.completed = false := by rw [hcomp, hA]
      refine ⟨?_, ?_, ?_, ?_⟩
      · rw [hio, hst]
        constructor
        · intro h'; exact absurd h' (by decide)
        · intro hallt
          exact absurd (fun i hi => hallt i hi) hall
      · rw [hio, hst]
        constructor
        · intro h'; exact absurd h' (by decide)
        · intro hallf
          rcases hany with ⟨j, hj, hjt⟩
          have := hallf j hj
          rw [hjt] at this
          exact absurd this (by decide)
      · rw [hio, hst]
        exact iff_of_true rfl ⟨hany, hexf⟩
      · rw [hst, hcm]
        constructor
        · intro h'; exact absurd h' (by decide)
        · intro h'; exact absurd h' (by decide)
    · have hallf : ∀ i ∈ items, i.completed = false := by
        intro i hi
        cases hb : i.completed with
        | false => rfl
        | true => exact absurd ⟨i, hi, hb⟩ hany
      have hN : items.any (fun i => i.completed) = false := by
        apply Bool.eq_false_iff.mpr
        intro hN'
        exact hany (List.any_eq_true.mp hN')
      have hst : t.status = .not_started := by
        rw [hstat]; simp [derivedStatus, hA, hN]
      have hcm : t.completed = false := by rw [hcomp, hA]
      refine ⟨?_, ?_, ?_, ?_⟩
      · rw [hio, hst]
        constructor
        · intro h'; exact absurd h' (by decide)
        · intro hallt
          exact absurd (fun i hi => hallt i hi) hall
      · rw [hio, hst]; exact iff_of_true rfl hallf
      · rw [hio, hst]
        constructor
        · intro h'; exact absurd h' (by decide)
        · rintro ⟨⟨j, hj, hjt⟩, -⟩
          exact absurd ⟨j, hj, hjt⟩ hany
      · rw [hst, hcm]
        constructor
        · intro h'; exact absurd h' (by decide)
        · intro h'; exact absurd h' (by decide)

/-- Claim C2 (amended): for a shopping task created with a NONEMPTY item
list, after any finite sequence of (successful) `toggleShoppingItem`
calls: status is completed iff every item is completed, not_started iff
no item is completed, in_progress iff some but not all are completed,
and the completed flag mirrors `status == completed`.  (With an empty
item list the code derives status completed, so the not_started
biconditional fails — see the counterexample.) -/
theorem shopping_status_derivation (caller : String) (input : TaskInput)
    (fresh : Nat → String) (newId : String) (now : Nat)
    (calls : List (String × Bool)) (l : List ShoppingItemInput)
    (hkind : input.type = some .shopping)
    (hl : input.shoppingItems = some l) (hne : l ≠ []) :
    ((applyToggles (addTask caller input fresh newId now) calls).status
        = .completed ↔
      ∀ i ∈ itemsOf (applyToggles (addTask caller input fresh newId now)
        calls), i.completed = true) ∧
    ((applyToggles (addTask caller input fresh newId now) calls).status
        = .not_started ↔
      ∀ i ∈ itemsOf (applyToggles (addTask caller input fresh newId now)
        calls), i.completed = false) ∧
    ((applyToggles (addTask caller input fresh newId now) calls).status
        = .in_progress ↔
      ((∃ i ∈ itemsOf (applyToggles (addTask caller input fresh newId now)
          calls), i.completed = true) ∧
       ∃ i ∈ itemsOf (applyToggles (addTask caller input fresh newId now)
          calls), i.completed = false)) ∧
    ((applyToggles (addTask caller input fresh newId now) calls).completed
        = true ↔
      (applyToggles (addTask caller input fresh newId now) calls).status
        = .completed) :=
  shoppingInv_characterization _
    (inv_applyToggles _ calls
      (inv_addTask caller input fresh newId now l hl hne))

/-- A concrete shopping-task input with two items (milk and eggs). -/
def demoInput : TaskInput :=
  { title := "groceries", description := none, dueDate := none,
    dueTime := none, priority := .medium, channelId := none,
    type := some .shopping,
    shoppingItems := some
      [{ id := none, name := "milk", completed := none, quantity := some 2 },
       { id := none, name := "eggs", completed := none, quantity := some 12 }],
    privacy := none }

/-- The task created from `demoInput` (fresh item ids "0" and "1"). -/
def demoShoppingTask : Task :=
  addTask "u1" demoInput (fun n => toString n) "t1" 0

/-- Witness for claim C2 (amended): the derivation biconditionals hold
after toggling the first item of the concrete shopping task. -/
theorem shopping_status_derivation_witness :
    (applyToggles demoShoppingTask [("0", true)]).status = .in_progress ↔
      ((∃ i ∈ itemsOf (applyToggles demoShoppingTask [("0", true)]),
         i.completed = true) ∧
       ∃ i ∈ itemsOf (applyToggles demoShoppingTask [("0", true)]),
         i.completed = false) :=
  (shopping_status_derivation "u1" demoInput (fun n => toString n) "t1" 0
    [("0", true)]
    [{ id := none, name := "milk", completed := none, quantity := some 2 },
     { id := none, name := "eggs", completed := none, quantity := some 12 }]
    rfl rfl (by decide)).2.2.1

/-- A shopping-task input whose item list is empty. -/
def emptyShoppingInput : TaskInput :=
  { title := "empty", description := none, dueDate := none, dueTime := none,
    priority := .low, channelId := none, type := some .shopping,
    shoppingItems := some [], privacy := none }

/-- Counterexample to claim C2 as stated: on a shopping task with an
empty item list, one successful `toggleShoppingItem` call leaves a state
where no item's completed flag is true (vacuously) yet the status is not
not_started (the code derives `completed` because `every` over an empty
list is true), refuting "status == not_started iff no item's completed
flag is true". -/
theorem shopping_status_empty_counterexample :
    (toggleShoppingItem
        (addTask "u1" emptyShoppingInput (fun n => toString n) "t1" 0)
        "x" true).toOption.isSome = true ∧
    (∀ i ∈ itemsOf (applyToggles
        (addTask "u1" emptyShoppingInput (fun n => toString n) "t1" 0)
        [("x", true)]), i.completed = true) ∧
    (∀ i ∈ itemsOf (applyToggles
        (addTask "u1" emptyShoppingInput (fun n => toString n) "t1" 0)
        [("x", true)]), i.completed = false) ∧
    (applyToggles
        (addTask "u1" emptyShoppingInput (fun n => toString n) "t1" 0)
        [("x", true)]).status ≠ .not_started := by
  refine ⟨rfl, ?_, ?_, ?_⟩ <;> decide

/-- Counterexample to claim C6 as stated: the concrete shopping task has
no item with id "zzz", yet `toggleShoppingItem(…, "zzz", true)` succeeds
instead of failing with ItemNotFound — the code only fails when the task
or its `shoppingItems` field is missing, never for a missing item id. -/
theorem toggleShoppingItem_missing_item_counterexample :
    (∀ i ∈ itemsOf demoShoppingTask, i.id ≠ "zzz") ∧
    (toggleShoppingItem demoShoppingTask "zzz" true).toOption.isSome
      = true := by
  refine ⟨?_, ?_⟩ <;> decide

/-- Claim C6 (amended): `toggleShoppingItem` fails (with the 'Task or
shopping items not found' error) exactly when the `shoppingItems` field
is absent; when the field is present it always succeeds, updating the
items whose id matches `itemId` (which leaves every item unchanged when
no id matches) and recomputing the task's `status` and `completed` from
the ENTIRE updated item list via the derivation rule. -/
theorem toggleShoppingItem_spec (t : Task) (itemId : String) (b : Bool) :
    (toggleShoppingItem t itemId b = .error .taskOrItemsNotFound ↔
      t.shoppingItems = none) ∧
    (∀ items, t.shoppingItems = some items →
      ∃ t', toggleShoppingItem t itemId b = .ok t' ∧
        itemsOf t' = items.map (fun i =>
          if i.id = itemId then { i with completed := b } else i) ∧
        t'.status = derivedStatus (itemsOf t') ∧
        t'.completed = (itemsOf t').all (fun i => i.completed) ∧
        ((∀ i ∈ items, i.id ≠ itemId) → itemsOf t' = items)) := by
  constructor
  · constructor
    · intro herr
      cases hit : t.shoppingItems with
      | none => rfl
      | some items =>
        simp [toggleShoppingItem, hit] at herr
    · intro hnone
      simp [toggleShoppingItem, hnone]
  · intro items hit
    cases hres : toggleShoppingItem t itemId b with
    | error e =>
      simp [toggleShoppingItem, hit] at hres
    | ok t' =>
      simp only [toggleShoppingItem, hit] at hres
      cases hres
      refine ⟨_, rfl, ?_, ?_, ?_, ?_⟩
      · simp [itemsOf]
      · simp [itemsOf, derivedStatus]
      · simp [itemsOf]
      · intro hno
        simp only [itemsOf, Option.getD_some]
        have hpt : ∀ i ∈ items,
            (if i.id = itemId then
              ({ i with completed := b } : ShoppingItem) else i) = i := by
          intro i hi
          rw [if_neg (hno i hi)]
        calc (items.map (fun i =>
                if i.id = itemId then
                  ({ i with completed := b } : ShoppingItem) else i))
            = items.map id := List.map_congr_left hpt
          _ = items := List.map_id items

/-- Witness for claim C6 (amended): toggling an existing item of the
concrete shopping task succeeds. -/
theorem toggleShoppingItem_spec_witness :
    ∃ t', toggleShoppingItem demoShoppingTask "0" true = .ok t' := by
  have h := (toggleShoppingItem_spec demoShoppingTask "0" true).2
    [{ id := "0", name := "milk", completed := false, quantity := some 2 },
     { id := "1", name := "eggs", completed := false, quantity := some 12 }]
    (by decide)
  rcases h with ⟨t', ht, -⟩
  exact ⟨t', ht⟩

/-- A concrete shopping task with one uncompleted item (id "0") and
status not_started, used to exhibit a stale state after `updateTask`. -/
def staleBase : Task :=
  { id := "t2", title := "groceries", description := none, dueDate := none,
    dueTime := none, priority := .medium, completed := false,
    channelId := none, createdBy := "u1", createdAt := 0,
    type := some .shopping, status := .not_started,
    shoppingItems := some
      [{ id := "0", name := "milk", completed := false, quantity := some 2 }],
    privacy := .«private» }

/-- Claim C10: `updateTask` never writes the top-level `completed` and
`status` fields (they are absent from the accepted update shape), even
when `shoppingItems` changes individual items' flags — so an update can
leave a shopping task's stored status/completed stale with respect to
its items, exhibited by the embedded concrete instance. -/
theorem updateTask_never_touches_completion (t : Task) (u : TaskUpdates)
    (fresh : Nat → String) :
    ((updateTask t u fresh).completed = t.completed ∧
     (updateTask t u fresh).status = t.status) ∧
    ∃ t0 u0, (updateTask t0 u0 fresh).type = some .shopping ∧
      derivedStatus (itemsOf (updateTask t0 u0 fresh)) ≠
        (updateTask t0 u0 fresh).status := by
  refine ⟨⟨rfl, rfl⟩, ?_⟩
  refine ⟨staleBase,
    { title := none, description := none, dueDate := none, dueTime := none,
      priority := none, channelId := none, type := none,
      shoppingItems := some
        [{ id := some "0", name := "milk", completed := some true,
           quantity := some 2 }],
      privacy := none }, ?_, ?_⟩
  · rfl
  · intro hcon
    simp [updateTask, itemsOf, derivedStatus, staleBase, List.enum,
      List.enumFrom] at hcon

/-! ### Messaging stores (`ChatContext`, `DirectMessageContext`) -/

/-- Insert into a list sorted ascending by `key` (used to model the
backing store's `orderBy('createdAt', 'asc')`). -/
def insertSorted {α : Type} (key : α → Nat) (x : α) : List α → List α
  | [] => [x]
  | y :: ys =>
    if key x ≤ key y then x :: y :: ys else y :: insertSorted key x ys

/-- Sort ascending by `key` (insertion sort); models the backing store's
`orderBy('createdAt', 'asc')` over a document set. -/
def sortByKey {α : Type} (key : α → Nat) (l : List α) : List α :=
  l.foldr (insertSorted key) []

theorem mem_insertSorted {α : Type} {key : α → Nat} {x z : α}
    {l : List α} : z ∈ insertSorted key x l ↔ z = x ∨ z ∈ l := by
  induction l with
  | nil => simp [insertSorted]
  | cons y ys ih =>
    unfold insertSorted
    split
    · simp
    · simp [ih]
      tauto

theorem pairwise_insertSorted {α : Type} (key : α → Nat) (x : α)
    (l : List α) (h : List.Pairwise (fun a b => key a ≤ key b) l) :
    List.Pairwise (fun a b => key a ≤ key b) (insertSorted key x l) := by
  induction l with
  | nil => simp [insertSorted]
  | cons y ys ih =>
    unfold insertSorted
    split
    · next hle =>
      refine List.Pairwise.cons ?_ h
      intro z hz
      rcases List.mem_cons.mp hz with rfl | hzys
      · exact hle
      · exact le_trans hle ((List.pairwise_cons.mp h).1 z hzys)
    · next hgt =>
      have hyx : key y ≤ key x := le_of_not_le hgt
      refine List.Pairwise.cons ?_ (ih (List.pairwise_cons.mp h).2)
      intro z hz
      rcases mem_insertSorted.mp hz with rfl | hzys
      · exact hyx
      · exact (List.pairwise_cons.mp h).1 z hzys

theorem sortByKey_sorted {α : Type} (key : α → Nat) (l : List α) :
    List.Pairwise (fun a b => key a ≤ key b) (sortByKey key l) := by
  induction l with
  | nil => exact List.Pairwise.nil
  | cons x xs ih => exact pairwise_insertSorted key x _ ih

theorem insertSorted_perm {α : Type} (key : α → Nat) (x : α)
    (l : List α) : List.Perm (insertSorted key x l) (x :: l) := by
  induction l with
  | nil => exact List.Perm.refl _
  | cons y ys ih =>
    unfold insertSorted
    split
    · exact List.Perm.refl _
    · exact (List.Perm.cons y ih).trans (List.Perm.swap x y ys)

theorem sortByKey_perm {α : Type} (key : α → Nat) (l : List α) :
    List.Perm (sortByKey key l) l := by
  induction l with
  | nil => exact List.Perm.refl _
  | cons x xs ih =>
    exact (insertSorted_perm key x _).trans (List.Perm.cons x ih)

/-- The `DirectMessage` document shape of `DirectMessageContext`. -/
structure DirectMessage where
  id : String
  content : String
  senderId : String
  receiverId : String
  senderName : String
  createdAt : Nat
deriving DecidableEq, Repr

/-- The `NotPermitted` failure of the direct-message operations. -/
inductive DMError where
  | notPermitted
deriving DecidableEq, Repr

/-- `canMessageUser`: the caller's joined channels are those whose
members contain the caller's uid (the membership-filtered subscription of
`ChannelContext`); the shared channels are those additionally containing
the target; the answer is whether any exist. -/
def canMessageUser (channels : List Channel) (me userId : String) : Bool :=
  let joinedChannels := channels.filter (fun c => c.members.contains me)
  let sharedChannels := joinedChannels.filter (fun c =>
    c.members.contains userId && c.members.contains me)
  decide (sharedChannels.length > 0)

/-- `sendMessage` of `DirectMessageContext`: guarded by
`canMessageUser`; on success appends the new direct-message document. -/
def sendDirectMessage (channels : List Channel) (sender receiver : String)
    (content senderName newId : String) (now : Nat)
    (msgs : List DirectMessage) : Except DMError (List DirectMessage) :=
  if canMessageUser channels sender receiver then
    .ok (msgs ++ [{ id := newId, content := content, senderId := sender,
                    receiverId := receiver, senderName := senderName,
                    createdAt := now }])
  else .error .notPermitted

/-- `getMessagesWithUser` of `DirectMessageContext`: guarded by
`canMessageUser`; on success yields the conversation between the two
identities ordered by creation time ascending (uncapped). -/
def getMessagesWithUser (channels : List Channel) (me userId : String)
    (msgs : List DirectMessage) : Except DMError (List DirectMessage) :=
  if canMessageUser channels me userId then
    .ok (sortByKey (fun m => m.createdAt) (msgs.filter (fun m =>
      (m.senderId == me || m.receiverId == me) &&
      (m.senderId == userId || m.receiverId == userId))))
  else .error .notPermitted

theorem canMessageUser_iff (channels : List Channel) (me userId : String) :
    canMessageUser channels me userId = true ↔
      ∃ c ∈ channels, me ∈ c.members ∧ userId ∈ c.members := by
  unfold canMessageUser
  simp only [decide_eq_true_eq, gt_iff_lt, List.length_pos]
  constructor
  · intro hne
    rcases List.exists_mem_of_ne_nil _ hne with ⟨c, hc⟩
    have h1 := List.mem_filter.mp hc
    have h2 := List.mem_filter.mp h1.1
    have hand := h1.2
    simp only [Bool.and_eq_true] at hand
    refine ⟨c, h2.1, ?_, ?_⟩
    · simpa [List.contains] using hand.2
    · simpa [List.contains] using hand.1
  · rintro ⟨c, hc, hme, huser⟩
    apply @List.ne_nil_of_mem _ c
    refine List.mem_filter.mpr ⟨List.mem_filter.mpr ⟨hc, ?_⟩, ?_⟩
    · simpa [List.contains] using hme
    · simp only [Bool.and_eq_true]
      refine ⟨?_, ?_⟩
      · simpa [List.contains] using huser
      · simpa [List.contains] using hme

/-- Claim C9: `canMessageUser` is symmetric in the two identities, equals
the existence of a channel whose members contain both, and when it is
false the direct-message `sendMessage` and `getMessagesWithUser` both
fail with NotPermitted. -/
theorem canMessageUser_symmetric (channels : List Channel) (a b : String)
    (content senderName newId : String) (now : Nat)
    (msgs : List DirectMessage) :
    canMessageUser channels a b = canMessageUser channels b a ∧
    (canMessageUser channels a b = true ↔
      ∃ c ∈ channels, a ∈ c.members ∧ b ∈ c.members) ∧
    (canMessageUser channels a b = false →
      sendDirectMessage channels a b content senderName newId now msgs =
        .error .notPermitted ∧
      getMessagesWithUser channels a b msgs = .error .notPermitted) := by
  refine ⟨?_, canMessageUser_iff channels a b, ?_⟩
  · have hiff : canMessageUser channels a b = true ↔
        canMessageUser channels b a = true := by
      rw [canMessageUser_iff, canMessageUser_iff]
      constructor
      · rintro ⟨c, hc, h1, h2⟩; exact ⟨c, hc, h2, h1⟩
      · rintro ⟨c, hc, h1, h2⟩; exact ⟨c, hc, h2, h1⟩
    cases hab : canMessageUser channels a b with
    | true => exact (hiff.mp hab).symm
    | false =>
      cases hba : canMessageUser channels b a with
      | true => exact absurd (hiff.mpr hba) (by simp [hab])
      | false => rfl
  · intro hfalse
    constructor
    · simp [sendDirectMessage, hfalse]
    · simp [getMessagesWithUser, hfalse]

/-- Witness for claim C9: with no shared channel (empty collection) the
direct-message send is rejected with NotPermitted. -/
theorem canMessageUser_symmetric_witness :
    sendDirectMessage [] "u1" "u2" "hi" "U1" "m1" 0 [] =
      .error .notPermitted :=
  ((canMessageUser_symmetric [] "u1" "u2" "hi" "U1" "m1" 0 []).2.2
    (by decide)).1

/-- The channel `Message` document shape of `ChatContext`. -/
structure Message where
  id : String
  content : String
  senderId : String
  senderName : String
  createdAt : Nat
  channelId : String
deriving DecidableEq, Repr

/-- `getChannelMessages` of `ChatContext`: the query over the channel's
message subcollection, `orderBy('createdAt', 'asc')` with `limit(100)` —
i.e. the FIRST 100 of the ascending order. -/
def getChannelMessages (msgs : List Message) (channelId : String) :
    List Message :=
  (sortByKey (fun m => m.createdAt)
    (msgs.filter (fun m => m.channelId == channelId))).take 100

/-- Each snapshot replaces the in-memory log wholesale
(`setMessages(messagesList)`), independently of the previous state. -/
def chatSnapshotUpdate (prev snapshot : List Message) : List Message :=
  snapshot

/-- The i-th message of the counterexample channel log (creation time
`i`). -/
def mkMsg (i : Nat) : Message :=
  { id := toString i, content := "m", senderId := "u", senderName := "u",
    createdAt := i, channelId := "c" }

/-- 101 messages in one channel, with creation times 0..100. -/
def msgs101 : List Message := (List.range 101).map mkMsg

set_option maxRecDepth 8000 in
/-- Counterexample to claim C7 as stated: with 101 messages the query
retains the message with the OLDEST creation time (0) and drops the
newest (100) — `orderBy('createdAt','asc')` + `limit(100)` keeps the
first (oldest) 100, not the most recent 100. -/
theorem getChannelMessages_drops_newest_counterexample :
    msgs101.length = 101 ∧
    (∃ m ∈ getChannelMessages msgs101 "c", m.createdAt = 0) ∧
    (∀ m ∈ getChannelMessages msgs101 "c", m.createdAt ≠ 100) := by
  refine ⟨rfl, ?_, ?_⟩ <;> decide

/-- Claim C7 (amended): `getChannelMessages(channelId)` yields the
channel's messages ordered by creation time ascending and capped to 100,
retaining the EARLIEST 100 when more exist (every retained message's
creation time is ≤ every dropped one's); when at most 100 exist it is a
permutation of the channel's whole log; and each snapshot replaces the
in-memory log wholesale. -/
theorem getChannelMessages_spec (msgs : List Message) (cid : String) :
    List.Pairwise (fun a b => a.createdAt ≤ b.createdAt)
      (getChannelMessages msgs cid) ∧
    (getChannelMessages msgs cid).length =
      min 100 (msgs.filter (fun m => m.channelId == cid)).length ∧
    ((msgs.filter (fun m => m.channelId == cid)).length ≤ 100 →
      List.Perm (getChannelMessages msgs cid)
        (msgs.filter (fun m => m.channelId == cid))) ∧
    (∀ x ∈ getChannelMessages msgs cid,
      ∀ y ∈ (sortByKey (fun m => m.createdAt)
        (msgs.filter (fun m => m.channelId == cid))).drop 100,
      x.createdAt ≤ y.createdAt) ∧
    (∀ prev, chatSnapshotUpdate prev (getChannelMessages msgs cid) =
      getChannelMessages msgs cid) := by
  have hsorted := sortByKey_sorted (fun m => m.createdAt)
    (msgs.filter (fun m => m.channelId == cid))
  have hperm := sortByKey_perm (fun m => m.createdAt)
    (msgs.filter (fun m => m.channelId == cid))
  refine ⟨?_, ?_, ?_, ?_, fun prev => rfl⟩
  · exact List.Pairwise.sublist (List.take_sublist 100 _) hsorted
  · unfold getChannelMessages
    rw [List.length_take, hperm.length_eq]
  · intro hle
    unfold getChannelMessages
    rw [List.take_of_length_le (by rw [hperm.length_eq]; exact hle)]
    exact hperm
  · intro x hx y hy
    have hsplit := hsorted
    rw [← List.take_append_drop 100 (sortByKey (fun m => m.createdAt)
      (msgs.filter (fun m => m.channelId == cid)))] at hsplit
    exact (List.pairwise_append.mp hsplit).2.2 x hx y hy

/-- Witness for claim C7 (amended): on the concrete 101-message log the
completeness implication is vacuous and the remaining conjuncts apply;
instantiated at a two-message log where the whole log is retained. -/
theorem getChannelMessages_spec_witness :
    List.Perm (getChannelMessages [mkMsg 1, mkMsg 0] "c")
      ([mkMsg 1, mkMsg 0].filter (fun m => m.channelId == "c")) :=
  (getChannelMessages_spec [mkMsg 1, mkMsg 0] "c").2.2.1 (by decide)

end TaskMaster
